import Mathlib

/-!
Verification of the financial-advisory repository's two scripts against its
specification.

The embedding models:
* `prophet.py` — the forecast-selector pipeline: `select_better_model`,
  `evaluate_arma`, `determine_arma_order`, and the selection/display logic of
  `main`.  Backtest mean-squared errors are modelled as `WithTop ℚ` (`⊤`
  standing for `np.inf`); a Python exception escaping a function is modelled
  as `Except.error`.  Library model fits (Prophet / statsmodels ARIMA) are
  external collaborators; their outcomes enter the model as explicit inputs.
* `Stock_risk_assessment/stock_risk.py` — `preprocess_data`,
  `determine_optimal_clusters`, and `analyze_user_portfolio`.  Cell values of
  the numeric columns are modelled by `FVal` (finite rational, `+inf`,
  `-inf`, or `NaN`); a data table is a list of rows.
-/

/-! ## Forecast selector (`prophet.py`) -/

/-- Model of `select_better_model` (prophet.py lines 359-373): returns the
string `"ARMA"` when `arma_mse < prophet_mse`, and `"Prophet"` otherwise.
MSE values live in `WithTop ℚ`, with `⊤` playing the role of `np.inf`;
`⊤ < ⊤` is false, exactly as `np.inf < np.inf` is false in IEEE. -/
def select_better_model (arma_mse prophet_mse : WithTop ℚ) : String :=
  if arma_mse < prophet_mse then "ARMA" else "Prophet"

/-- Model of `evaluate_arma` (prophet.py lines 272-312) applied to a price
table of `n` rows.  `arma_train = df.iloc[-32:-2]` has `min 30 (n - 2)` rows
and `arma_test = df.iloc[-2:]` has `min 2 n` rows; when either is too short
the function returns `np.inf`.  The statsmodels fit (`fit_arma_model`
returning `None` on failure) and the two-step forecast (raising on failure)
are external collaborators, abstracted by the booleans `fitOk` and
`forecastOk`; `mse` is the mean-squared error computed when both succeed. -/
def evaluate_arma (n : Nat) (fitOk forecastOk : Bool) (mse : WithTop ℚ) :
    WithTop ℚ :=
  let trainLen := min 30 (n - 2)
  let testLen := min 2 n
  if trainLen < 30 || testLen < 2 then ⊤
  else if !fitOk then ⊤
  else if !forecastOk then ⊤
  else mse

/-- Inputs of one run of `main` (prophet.py lines 379-495): the number of
rows fetched for each model and the outcomes of the external library calls.
`prophetFit` is the outcome of `train_and_predict_prophet`: `Except.ok mse`
when the Prophet fit succeeds, `Except.error ()` when the library raises —
that function's handler (lines 99-101) re-raises the caught exception, so an
error propagates to the caller.  `armaLen = none` models
`get_stock_data_arma` returning `None`. -/
structure MainEnv where
  prophetLen : Nat
  prophetFit : Except Unit (WithTop ℚ)
  armaLen : Option Nat
  armaEvalFitOk : Bool
  armaEvalForecastOk : Bool
  armaEvalMse : WithTop ℚ
  armaFullFitOk : Bool
  armaFullPredOk : Bool

/-- The final console report of `main` (lines 470-495): the Prophet 7-day
forecast table, the ARMA 7-day percentage-change message, or the string
`"No predictions available."`. -/
inductive MainDisplay where
  | prophetForecast
  | armaForecast
  | noPredictions
deriving DecidableEq, Repr

/-- The value of the variable `arma_mse` in `main` (lines 407-418): `np.inf`
when the fetch failed or fewer than 32 rows are available, otherwise the
result of `evaluate_arma`. -/
def armaMseOf (env : MainEnv) : WithTop ℚ :=
  match env.armaLen with
  | none => ⊤
  | some n =>
      if n < 32 then ⊤
      else evaluate_arma n env.armaEvalFitOk env.armaEvalForecastOk
        env.armaEvalMse

/-- Model of `main` (prophet.py lines 379-495).  `Except.error ()` models an
exception escaping `main`; `Except.ok d` models normal termination with
final display `d`.  The Python code branches on `'name' in locals()`:
`mse_prophet` and `future_metrics_prophet` exist exactly when
`prophetLen ≥ 10` and the Prophet fit returned (modelled by `mseProphetOpt`
being `some`); `arma_forecast` exists exactly when the ARMA plotting branch
ran far enough to assign it (`better_model = "ARMA"`, data present with at
least 32 rows, and the full-window fit succeeded) — note it exists, and is
dereferenced, even when `predict_arma` returned `None`, in which case
`arma_forecast.index` raises. -/
def mainModel (env : MainEnv) : Except Unit MainDisplay :=
  let prophetOutcome : Except Unit (Option (WithTop ℚ)) :=
    if env.prophetLen < 10 then Except.ok none
    else
      match env.prophetFit with
      | Except.error e => Except.error e
      | Except.ok m => Except.ok (some m)
  match prophetOutcome with
  | Except.error e => Except.error e
  | Except.ok mseProphetOpt =>
      let arma_mse := armaMseOf env
      let better_model :=
        match mseProphetOpt with
        | some mp => select_better_model arma_mse mp
        | none => if arma_mse < ⊤ then "ARMA" else "Prophet"
      let armaForecastAssigned :=
        better_model == "ARMA" &&
          (match env.armaLen with
           | some n => decide (32 ≤ n)
           | none => false) &&
          env.armaFullFitOk
      if better_model == "Prophet" && mseProphetOpt.isSome then
        Except.ok MainDisplay.prophetForecast
      else if better_model == "ARMA" && armaForecastAssigned then
        if env.armaFullPredOk then Except.ok MainDisplay.armaForecast
        else Except.error ()
      else Except.ok MainDisplay.noPredictions

/-- C4: `select_better_model` chooses `"ARMA"` iff the ARMA backtest MSE is
strictly lower than the Prophet backtest MSE; in particular, with Prophet
(trend) MSE 2.0 and ARMA MSE 5.0 the selector returns `"Prophet"`, and a
`main` run with those backtest errors displays the Prophet 7-day forward
projection. -/
theorem select_better_model_arma_iff_lower :
    (∀ a p : WithTop ℚ, select_better_model a p = "ARMA" ↔ a < p) ∧
    select_better_model ((5 : ℚ) : WithTop ℚ) ((2 : ℚ) : WithTop ℚ) =
      "Prophet" ∧
    mainModel ⟨100, Except.ok ((2 : ℚ) : WithTop ℚ), some 100, true, true,
        ((5 : ℚ) : WithTop ℚ), true, true⟩ =
      Except.ok MainDisplay.prophetForecast := by
  refine ⟨fun a p => ?_, ?_, ?_⟩
  · unfold select_better_model
    split
    · simpa using ‹a < p›
    · simpa using ‹¬ a < p›
  · unfold select_better_model
    rw [if_neg]
    simp only [WithTop.coe_lt_coe]
    norm_num
  · rfl

/-- C10: whenever the two backtest MSE values are exactly equal — including
the case where both are infinite — `select_better_model` returns
`"Prophet"`: the trend model wins every tie. -/
theorem select_better_model_tie_prophet :
    (∀ m : WithTop ℚ, select_better_model m m = "Prophet") ∧
    select_better_model ⊤ ⊤ = "Prophet" := by
  constructor
  · intro m
    unfold select_better_model
    exact if_neg (lt_irrefl m)
  · exact if_neg (lt_irrefl ⊤)

/-- C5 (code bug): a Prophet history of 100 rows whose library fit raises is
re-raised by `train_and_predict_prophet` (prophet.py lines 99-101, whose
handler reads `# Handle exceptions silently` yet executes `raise`), so the
exception escapes `main` instead of being recorded as an infinite MSE; by
contrast `evaluate_arma` does convert every per-model failure — short
history, fit failure, forecast failure — into the infinite score `⊤`. -/
theorem prophet_fit_failure_escapes_main :
    mainModel ⟨100, Except.error (), some 100, true, true,
        ((5 : ℚ) : WithTop ℚ), true, true⟩ = Except.error () ∧
    evaluate_arma 10 true true ((1 : ℚ) : WithTop ℚ) = ⊤ ∧
    evaluate_arma 100 false true ((1 : ℚ) : WithTop ℚ) = ⊤ ∧
    evaluate_arma 100 true false ((1 : ℚ) : WithTop ℚ) = ⊤ := by
  refine ⟨rfl, rfl, rfl, rfl⟩

/-- C6: when the Prophet model fails for lack of data (fewer than 10 rows,
the only path on which its backtest error is set to `np.inf`) and ARMA's
error is likewise infinite, `main` terminates normally and its final report
is `"No predictions available."`. -/
theorem main_both_fail_no_predictions (env : MainEnv)
    (hp : env.prophetLen < 10) (ha : armaMseOf env = ⊤) :
    mainModel env = Except.ok MainDisplay.noPredictions := by
  unfold mainModel
  rw [if_pos hp]
  simp only [ha, lt_irrefl, if_false, reduceIte]
  rfl

/-- Concrete instance of `main_both_fail_no_predictions`: the Prophet fetch
yields 5 rows and the ARMA fetch returns no data. -/
theorem main_both_fail_no_predictions_witness :
    mainModel ⟨5, Except.ok ((0 : ℚ) : WithTop ℚ), none, true, true,
        ((0 : ℚ) : WithTop ℚ), true, true⟩ =
      Except.ok MainDisplay.noPredictions :=
  main_both_fail_no_predictions _ (by decide) rfl

/-- The scanning loop of `determine_arma_order` (prophet.py lines 218-230):
starting from lag index `i`, return the first index whose value has absolute
value below `threshold`, and `0` when no element qualifies. -/
def scanLags (threshold : ℚ) : Nat → List ℚ → Nat
  | _, [] => 0
  | i, v :: rest => if |v| < threshold then i else scanLags threshold (i + 1) rest

/-- Model of `determine_arma_order` (prophet.py lines 200-232).  The library
calls `pacf(series, nlags=max_lag)` and `acf(series, nlags=max_lag)` are
external collaborators; their outputs enter the model as the lists
`pacf_vals` and `acf_vals` (length `max_lag + 1`, index 0 being lag 0).  The
source scans `range(1, len(vals))`, so the model scans `vals.drop 1`
starting at lag 1. -/
def determine_arma_order (pacf_vals acf_vals : List ℚ) (threshold : ℚ) :
    Nat × Nat :=
  (scanLags threshold 1 (pacf_vals.drop 1),
   scanLags threshold 1 (acf_vals.drop 1))

/-- The property claimed of each component of `determine_arma_order`: `p` is
the smallest lag in `[1, max_lag]` whose entry has magnitude below the
threshold, or `p = 0` and no lag in `[1, max_lag]` qualifies. -/
def IsFirstLagBelow (vals : List ℚ) (threshold : ℚ) (max_lag p : Nat) : Prop :=
  (1 ≤ p ∧ p ≤ max_lag ∧ |vals.getD p 0| < threshold ∧
    ∀ i, 1 ≤ i → i < p → ¬ |vals.getD i 0| < threshold) ∨
  (p = 0 ∧ ∀ i, 1 ≤ i → i ≤ max_lag → ¬ |vals.getD i 0| < threshold)

theorem scanLags_eq_zero (threshold : ℚ) (k : Nat) (l : List ℚ)
    (h : ∀ v ∈ l, ¬ |v| < threshold) : scanLags threshold k l = 0 := by
  induction l generalizing k with
  | nil => rfl
  | cons v rest ih =>
      unfold scanLags
      rw [if_neg (h v (List.mem_cons_self v rest))]
      exact ih _ fun w hw => h w (List.mem_cons_of_mem _ hw)

theorem scanLags_found (threshold : ℚ) (k : Nat) (l : List ℚ)
    (h : ∃ v ∈ l, |v| < threshold) :
    ∃ j, j < l.length ∧ scanLags threshold k l = k + j ∧
      |l.getD j 0| < threshold ∧
      ∀ j', j' < j → ¬ |l.getD j' 0| < threshold := by
  induction l generalizing k with
  | nil => simp at h
  | cons v rest ih =>
      by_cases hv : |v| < threshold
      · refine ⟨0, by simp, ?_, by simpa using hv, by simp⟩
        unfold scanLags
        rw [if_pos hv]
        omega
      · obtain ⟨w, hw, hwlt⟩ := h
        rcases List.mem_cons.mp hw with rfl | hw'
        · exact absurd hwlt hv
        · obtain ⟨j, hjlen, hjeq, hjlt, hjmin⟩ := ih (k + 1) ⟨w, hw', hwlt⟩
          refine ⟨j + 1, by simpa using hjlen, ?_, by simpa using hjlt, ?_⟩
          · unfold scanLags
            rw [if_neg hv, hjeq]
            ring
          · intro j' hj'
            cases j' with
            | zero => simpa using hv
            | succ m =>
                simpa using hjmin m (Nat.lt_of_succ_lt_succ hj')

theorem getD_drop_one (l : List ℚ) (j : Nat) :
    (l.drop 1).getD j 0 = l.getD (j + 1) 0 := by
  simp [List.getD_eq_getElem?_getD, List.getElem?_drop, Nat.add_comm]

theorem scanLags_drop_spec (l : List ℚ) (max_lag : Nat) (threshold : ℚ)
    (hl : l.length = max_lag + 1) :
    IsFirstLagBelow l threshold max_lag (scanLags threshold 1 (l.drop 1)) := by
  have hdlen : (l.drop 1).length = max_lag := by simp [hl]
  by_cases hex : ∃ i, 1 ≤ i ∧ i ≤ max_lag ∧ |l.getD i 0| < threshold
  · left
    obtain ⟨i, hi1, him, hival⟩ := hex
    have hidx : i - 1 < (l.drop 1).length := by omega
    have hmem : l.getD i 0 ∈ l.drop 1 := by
      have : (l.drop 1).getD (i - 1) 0 = l.getD i 0 := by
        rw [getD_drop_one]
        congr 1
        omega
      rw [← this, List.getD_eq_getElem _ _ hidx]
      exact List.getElem_mem hidx
    obtain ⟨j, hjlen, hjeq, hjlt, hjmin⟩ :=
      scanLags_found threshold 1 (l.drop 1) ⟨_, hmem, hival⟩
    rw [hjeq]
    refine ⟨by omega, by omega, ?_, ?_⟩
    · rw [Nat.add_comm 1 j, ← getD_drop_one]
      exact hjlt
    · intro i' hi'1 hi'lt
      have : (l.drop 1).getD (i' - 1) 0 = l.getD i' 0 := by
        rw [getD_drop_one]
        congr 1
        omega
      rw [← this]
      exact hjmin (i' - 1) (by omega)
  · right
    push_neg at hex
    refine ⟨?_, fun i hi1 him => not_lt.mpr (hex i hi1 him)⟩
    apply scanLags_eq_zero
    intro v hv
    obtain ⟨j, hj, hjv⟩ := List.mem_iff_getElem.mp hv
    have : l.getD (j + 1) 0 = v := by
      rw [← getD_drop_one, List.getD_eq_getElem _ _ hj, hjv]
    rw [← this]
    exact not_lt.mpr (hex (j + 1) (by omega) (by omega))

/-- C9: `determine_arma_order` returns `(p, q)` where `p` is the smallest
lag in `[1, max_lag]` whose entry of the pacf sequence has magnitude below
the threshold (`p = 0` when no lag within `max_lag` qualifies), and `q` is
determined the same way from the acf sequence.  In the source the defaults
are `max_lag = 10` and `threshold = 0.2`. -/
theorem determine_arma_order_first_lag_below
    (pacf_vals acf_vals : List ℚ) (max_lag : Nat) (threshold : ℚ)
    (hp : pacf_vals.length = max_lag + 1)
    (ha : acf_vals.length = max_lag + 1) :
    IsFirstLagBelow pacf_vals threshold max_lag
      (determine_arma_order pacf_vals acf_vals threshold).1 ∧
    IsFirstLagBelow acf_vals threshold max_lag
      (determine_arma_order pacf_vals acf_vals threshold).2 :=
  ⟨scanLags_drop_spec pacf_vals max_lag threshold hp,
   scanLags_drop_spec acf_vals max_lag threshold ha⟩

/-- Concrete instance of `determine_arma_order_first_lag_below` for the
sequences pacf = [1, 1/2, 1/10, 3/10] and acf = [1, 1/10, 1/2, 3/10] with
`max_lag = 3` and the default threshold `0.2 = 1/5`: the order is `(2, 1)`
and each component is the first sub-threshold lag. -/
theorem determine_arma_order_first_lag_below_witness :
    ([(1 : ℚ), 1/2, 1/10, 3/10].length = 3 + 1) ∧
    ([(1 : ℚ), 1/10, 1/2, 3/10].length = 3 + 1) ∧
    (IsFirstLagBelow [(1 : ℚ), 1/2, 1/10, 3/10] (1/5) 3
      (determine_arma_order [(1 : ℚ), 1/2, 1/10, 3/10]
        [(1 : ℚ), 1/10, 1/2, 3/10] (1/5)).1 ∧
     IsFirstLagBelow [(1 : ℚ), 1/10, 1/2, 3/10] (1/5) 3
      (determine_arma_order [(1 : ℚ), 1/2, 1/10, 3/10]
        [(1 : ℚ), 1/10, 1/2, 3/10] (1/5)).2) :=
  ⟨rfl, rfl,
   determine_arma_order_first_lag_below _ _ 3 (1/5) rfl rfl⟩

/-! ## Stock clustering and recommendation (`Stock_risk_assessment/stock_risk.py`) -/

/-- The scoring loop of `determine_optimal_clusters` (stock_risk.py lines
188-198): for each candidate `k` in `range(2, max_k + 1)` it records the
KMeans within-cluster sum of squares (`kmeans.inertia_`) and the silhouette
score of the fitted labels.  The two library scoring routines are external
collaborators, passed in as functions of the feature matrix and `k`. -/
def cluster_scores (inertia silhouette : List (List ℚ) → Nat → ℚ)
    (X : List (List ℚ)) (max_k : Nat) : List (ℚ × ℚ) :=
  (List.range' 2 (max_k - 1)).map fun k => (inertia X k, silhouette X k)

/-- Model of `determine_optimal_clusters` (stock_risk.py lines 176-224):
the WCSS and silhouette lists are computed over `k ∈ [2, max_k]` and then
discarded; the returned value is the hardcoded constant `optimal_k = 8`
(line 222). -/
def determine_optimal_clusters (inertia silhouette : List (List ℚ) → Nat → ℚ)
    (X : List (List ℚ)) (max_k : Nat) : Nat :=
  let _scores := cluster_scores inertia silhouette X max_k
  8

/-- C8: for every feature matrix `X` and every `max_k ≥ 2`,
`determine_optimal_clusters` scores each candidate `k ∈ [2, max_k]` (the
score list has one WCSS/silhouette pair per candidate, in order) yet returns
the constant `8` regardless of the scores and of `X`. -/
theorem determine_optimal_clusters_constant_eight
    (inertia silhouette : List (List ℚ) → Nat → ℚ) (X : List (List ℚ))
    (max_k : Nat) (h : 2 ≤ max_k) :
    determine_optimal_clusters inertia silhouette X max_k = 8 ∧
    (cluster_scores inertia silhouette X max_k).length = max_k - 1 ∧
    ∀ k, 2 ≤ k → k ≤ max_k →
      (cluster_scores inertia silhouette X max_k).getD (k - 2) (0, 0) =
        (inertia X k, silhouette X k) := by
  refine ⟨rfl, by simp [cluster_scores], ?_⟩
  intro k hk2 hkm
  have hidx : k - 2 < (List.range' 2 (max_k - 1)).length := by
    simp only [List.length_range']
    omega
  have hidx2 : (List.range' 2 (max_k - 1))[k - 2]? = some k := by
    rw [List.getElem?_eq_getElem (by simpa using hidx), List.getElem_range']
    congr 1
    omega
  simp [cluster_scores, List.getD_eq_getElem?_getD, List.getElem?_map, hidx2]

/-- Concrete instance of `determine_optimal_clusters_constant_eight` with
`max_k = 3` and score oracles returning the candidate count itself. -/
theorem determine_optimal_clusters_constant_eight_witness :
    (2 ≤ 3) ∧
    (determine_optimal_clusters (fun _ k => (k : ℚ)) (fun _ k => (k : ℚ))
        [] 3 = 8 ∧
      (cluster_scores (fun _ k => (k : ℚ)) (fun _ k => (k : ℚ))
          [] 3).length = 3 - 1 ∧
      ∀ k, 2 ≤ k → k ≤ 3 →
        (cluster_scores (fun _ k => (k : ℚ)) (fun _ k => (k : ℚ))
            [] 3).getD (k - 2) (0, 0) = ((k : ℚ), (k : ℚ))) :=
  ⟨by decide,
   determine_optimal_clusters_constant_eight _ _ [] 3 (by decide)⟩

/-- A cell value of the numeric CSV columns: a finite rational, `+inf`,
`-inf`, or `NaN` (missing).  `ℚ` stands in for IEEE doubles; the claims at
stake only concern finiteness and missingness. -/
inductive FVal where
  | fin (q : ℚ)
  | pinf
  | ninf
  | nan
deriving DecidableEq, Repr

def FVal.isNan : FVal → Bool
  | .nan => true
  | _ => false

def FVal.isFin : FVal → Bool
  | .fin _ => true
  | _ => false

/-- IEEE-style subtraction on `FVal`: `NaN` propagates, same-signed
infinities cancel to `NaN`, otherwise an infinity dominates. -/
def FVal.sub : FVal → FVal → FVal
  | .nan, _ => .nan
  | _, .nan => .nan
  | .pinf, .pinf => .nan
  | .pinf, _ => .pinf
  | .ninf, .ninf => .nan
  | .ninf, _ => .ninf
  | .fin _, .pinf => .ninf
  | .fin _, .ninf => .pinf
  | .fin a, .fin b => .fin (a - b)

/-- IEEE-style division on `FVal` (signed zeros collapsed to `0`). -/
def FVal.div : FVal → FVal → FVal
  | .nan, _ => .nan
  | _, .nan => .nan
  | .pinf, .pinf => .nan
  | .pinf, .ninf => .nan
  | .ninf, .pinf => .nan
  | .ninf, .ninf => .nan
  | .pinf, .fin b => if b < 0 then .ninf else .pinf
  | .ninf, .fin b => if b < 0 then .pinf else .ninf
  | .fin _, .pinf => .fin 0
  | .fin _, .ninf => .fin 0
  | .fin a, .fin b =>
      if b = 0 then (if a = 0 then .nan else if 0 < a then .pinf else .ninf)
      else .fin (a / b)

/-- A raw row of the consolidated stock CSV: ticker, sector (`none` =
missing) and the four numeric columns Market Cap, P/E Ratio, Average Return
and Volatility. -/
structure RawRow where
  ticker : String
  sector : Option String
  marketCap : FVal
  peRatio : FVal
  avgReturn : FVal
  volatility : FVal
deriving DecidableEq, Repr

/-- A row of the preprocessed table: the sector column replaced by its
one-hot indicator columns, the four numeric columns standardized. -/
structure CleanRow where
  ticker : String
  marketCap : FVal
  peRatio : FVal
  avgReturn : FVal
  volatility : FVal
  sectorDummies : List Bool
deriving DecidableEq, Repr

/-- Per-column mean and scale of the fitted `StandardScaler` (stock_risk.py
lines 166-167).  The scaler is an external collaborator; sklearn fits
`mean_` to the column mean and `scale_` to the standard deviation, with a
zero deviation replaced by `1`, so every scale is nonzero. -/
structure ScalerParams where
  mcMean : ℚ
  mcScale : ℚ
  peMean : ℚ
  peScale : ℚ
  arMean : ℚ
  arScale : ℚ
  volMean : ℚ
  volScale : ℚ
deriving DecidableEq, Repr

/-- Whether none of the four numeric columns of a row is `NaN` (the
`dropna(subset=numerical_features)` test). -/
def numericsFreeOfNan (r : RawRow) : Bool :=
  !r.marketCap.isNan && !r.peRatio.isNan && !r.avgReturn.isNan &&
    !r.volatility.isNan

/-- `replace([np.inf, -np.inf], np.nan)` on one cell. -/
def replaceInf : FVal → FVal
  | .pinf => .nan
  | .ninf => .nan
  | v => v

/-- The standardization `x ↦ (x - mean) / scale` applied to one cell. -/
def standardize (mean scale : ℚ) (v : FVal) : FVal :=
  (v.sub (.fin mean)).div (.fin scale)

/-- Model of `preprocess_data` (stock_risk.py lines 139-170): drop rows
missing any essential column (Sector plus the four numerics; `dropna` drops
`NaN` only, so infinities survive this step), one-hot encode the sector over
the sectors present, replace infinities in the four numeric columns with
`NaN`, drop rows still containing `NaN` there, and standardize the four
numeric columns with the fitted scaler. -/
def preprocess_data (scaler : ScalerParams) (df : List RawRow) :
    List CleanRow :=
  let df_clean := df.filter fun r => r.sector.isSome && numericsFreeOfNan r
  let vocab := (df_clean.filterMap RawRow.sector).dedup
  let df_repl := df_clean.map fun r =>
    { r with marketCap := replaceInf r.marketCap,
             peRatio := replaceInf r.peRatio,
             avgReturn := replaceInf r.avgReturn,
             volatility := replaceInf r.volatility }
  let df_final := df_repl.filter numericsFreeOfNan
  df_final.map fun r =>
    { ticker := r.ticker
      marketCap := standardize scaler.mcMean scaler.mcScale r.marketCap
      peRatio := standardize scaler.peMean scaler.peScale r.peRatio
      avgReturn := standardize scaler.arMean scaler.arScale r.avgReturn
      volatility := standardize scaler.volMean scaler.volScale r.volatility
      sectorDummies := vocab.map fun s => r.sector == some s }

theorem replaceInf_isFin_of_not_isNan (v : FVal)
    (h : (replaceInf v).isNan = false) : (replaceInf v).isFin = true := by
  cases v <;> simp_all [replaceInf, FVal.isNan, FVal.isFin]

theorem standardize_isFin (mean scale : ℚ) (v : FVal)
    (hv : v.isFin = true) (hs : scale ≠ 0) :
    (standardize mean scale v).isFin = true := by
  cases v with
  | fin q => simp [standardize, FVal.sub, FVal.div, hs, FVal.isFin]
  | pinf => simp [FVal.isFin] at hv
  | ninf => simp [FVal.isFin] at hv
  | nan => simp [FVal.isFin] at hv

/-- C7: the output of `preprocess_data` contains no infinite and no missing
value in the four numeric columns Market Cap, P/E Ratio, Average Return and
Volatility: every surviving cell of those columns is a finite number.  The
scaler scales are nonzero, as sklearn guarantees (a zero standard deviation
is replaced by 1). -/
theorem preprocess_data_numeric_columns_finite (scaler : ScalerParams)
    (df : List RawRow)
    (h1 : scaler.mcScale ≠ 0) (h2 : scaler.peScale ≠ 0)
    (h3 : scaler.arScale ≠ 0) (h4 : scaler.volScale ≠ 0) :
    ∀ r ∈ preprocess_data scaler df,
      r.marketCap.isFin = true ∧ r.peRatio.isFin = true ∧
      r.avgReturn.isFin = true ∧ r.volatility.isFin = true := by
  intro r hr
  simp only [preprocess_data, List.mem_map, List.mem_filter] at hr
  obtain ⟨r', ⟨⟨r₀, hr₀, rfl⟩, hr'nan⟩, rfl⟩ := hr
  simp only [numericsFreeOfNan, Bool.and_eq_true, Bool.not_eq_true'] at hr'nan
  obtain ⟨⟨⟨hmc, hpe⟩, har⟩, hvol⟩ := hr'nan
  exact ⟨standardize_isFin _ _ _ (replaceInf_isFin_of_not_isNan _ hmc) h1,
    standardize_isFin _ _ _ (replaceInf_isFin_of_not_isNan _ hpe) h2,
    standardize_isFin _ _ _ (replaceInf_isFin_of_not_isNan _ har) h3,
    standardize_isFin _ _ _ (replaceInf_isFin_of_not_isNan _ hvol) h4⟩

/-- Concrete instance of `preprocess_data_numeric_columns_finite`: a table
with one fully finite row, one row with an infinite Market Cap (dropped
after infinity replacement), one row with a missing P/E (dropped by the
essential-column filter), and one row with a missing sector. -/
theorem preprocess_data_numeric_columns_finite_witness :
    ((1 : ℚ) ≠ 0) ∧
    ∀ r ∈ preprocess_data ⟨0, 1, 0, 1, 0, 1, 0, 1⟩
        [⟨"A", some ("IT"), FVal.fin 2, FVal.fin 3, FVal.fin (1/2),
           FVal.fin 1⟩,
         ⟨"B", some ("FI"), FVal.pinf, FVal.fin 3, FVal.fin 0, FVal.fin 1⟩,
         ⟨"C", some ("IT"), FVal.fin 1, FVal.nan, FVal.fin 1, FVal.fin 1⟩,
         ⟨"D", none, FVal.fin 1, FVal.fin 1, FVal.fin 1, FVal.fin 1⟩],
      r.marketCap.isFin = true ∧ r.peRatio.isFin = true ∧
      r.avgReturn.isFin = true ∧ r.volatility.isFin = true :=
  ⟨one_ne_zero,
   preprocess_data_numeric_columns_finite _ _ one_ne_zero one_ne_zero
     one_ne_zero one_ne_zero⟩

/-- A row of the cluster-labeled table consumed by the Recommendation
Engine: the columns the engine reads and returns (Ticker, Cluster, Average
Return). -/
structure StockRow where
  ticker : String
  cluster : Int
  avgReturn : ℚ
deriving DecidableEq, Repr

/-- Model of `analyze_user_portfolio` (stock_risk.py lines 270-314): keep
the rows whose ticker the user holds; if none, return the empty table.
Collect the distinct clusters of those rows, keep every row of the table
whose cluster is not among them; if none, return the empty table; otherwise
sort by Average Return descending and return the first `top_n` rows.  The
pandas `sort_values(by='Average Return', ascending=False)` call uses the
default `kind='quicksort'`, which pandas documents as not stable, so the
sort is modelled as an arbitrary function `sortDesc`; theorems assume of it
only what that contract guarantees (here: it permutes its input). -/
def analyze_user_portfolio (sortDesc : List StockRow → List StockRow)
    (clustered_df : List StockRow) (user_portfolio : List String)
    (top_n : Nat) : List StockRow :=
  let user_stocks := clustered_df.filter fun r =>
    decide (r.ticker ∈ user_portfolio)
  if user_stocks.isEmpty then []
  else
    let user_clusters := (user_stocks.map StockRow.cluster).dedup
    let recommended_stocks := clustered_df.filter fun r =>
      decide (r.cluster ∉ user_clusters)
    if recommended_stocks.isEmpty then []
    else (sortDesc recommended_stocks).take top_n

/-- C1: diversification invariant.  Every row returned by
`analyze_user_portfolio` has a cluster label different from the cluster
label of every held ticker found in the table, for any sort implementation
that permutes its input. -/
theorem analyze_user_portfolio_diversification
    (sortDesc : List StockRow → List StockRow)
    (hperm : ∀ l : List StockRow, (sortDesc l).Perm l)
    (clustered_df : List StockRow) (user_portfolio : List String)
    (top_n : Nat) (r : StockRow)
    (hr : r ∈ analyze_user_portfolio sortDesc clustered_df user_portfolio
      top_n)
    (s : StockRow) (hs : s ∈ clustered_df)
    (hsp : s.ticker ∈ user_portfolio) :
    r.cluster ≠ s.cluster := by
  simp only [analyze_user_portfolio] at hr
  split at hr
  · exact absurd hr (List.not_mem_nil r)
  · split at hr
    · exact absurd hr (List.not_mem_nil r)
    · have hr1 := List.mem_of_mem_take hr
      have hr2 := (hperm _).mem_iff.mp hr1
      obtain ⟨_, hrcond⟩ := List.mem_filter.mp hr2
      have hncl := of_decide_eq_true hrcond
      intro heq
      apply hncl
      rw [heq]
      exact List.mem_dedup.mpr (List.mem_map_of_mem _
        (List.mem_filter.mpr ⟨hs, decide_eq_true hsp⟩))

/-- Concrete instance of `analyze_user_portfolio_diversification`: a
two-row table with the identity as sort, holding ticker A of cluster 0; the
returned row B of cluster 1 differs from A's cluster. -/
theorem analyze_user_portfolio_diversification_witness :
    (∀ l : List StockRow, (id l).Perm l) ∧
    (⟨"B", 1, 2⟩ : StockRow) ∈ analyze_user_portfolio id
      [⟨"A", 0, 1⟩, ⟨"B", 1, 2⟩] ["A"] 5 ∧
    (⟨"A", 0, 1⟩ : StockRow) ∈
      ([⟨"A", 0, 1⟩, ⟨"B", 1, 2⟩] : List StockRow) ∧
    "A" ∈ ["A"] ∧
    (⟨"B", 1, 2⟩ : StockRow).cluster ≠ (⟨"A", 0, 1⟩ : StockRow).cluster :=
  ⟨fun l => List.Perm.refl l, by decide, by decide, by decide,
   analyze_user_portfolio_diversification id (fun l => List.Perm.refl l)
     [⟨"A", 0, 1⟩, ⟨"B", 1, 2⟩] ["A"] 5 ⟨"B", 1, 2⟩ (by decide)
     ⟨"A", 0, 1⟩ (by decide) (by decide)⟩

/-- C3: `analyze_user_portfolio` returns the empty table (raising no error)
when the holdings intersect no ticker of the labeled table, and likewise
when every cluster of the table is already covered by a held ticker, so the
candidate pool after exclusion is empty. -/
theorem analyze_user_portfolio_empty_cases
    (sortDesc : List StockRow → List StockRow)
    (clustered_df : List StockRow) (user_portfolio : List String)
    (top_n : Nat) :
    ((∀ r ∈ clustered_df, r.ticker ∉ user_portfolio) →
      analyze_user_portfolio sortDesc clustered_df user_portfolio top_n
        = []) ∧
    ((∀ r ∈ clustered_df, ∃ s ∈ clustered_df,
        s.ticker ∈ user_portfolio ∧ s.cluster = r.cluster) →
      analyze_user_portfolio sortDesc clustered_df user_portfolio top_n
        = []) := by
  constructor
  · intro h
    simp only [analyze_user_portfolio]
    rw [if_pos]
    rw [List.isEmpty_iff]
    exact List.filter_eq_nil_iff.mpr fun r hrd => by simpa using h r hrd
  · intro h
    simp only [analyze_user_portfolio]
    by_cases h1 : (clustered_df.filter fun r =>
        decide (r.ticker ∈ user_portfolio)).isEmpty
    · rw [if_pos h1]
    · rw [if_neg h1, if_pos]
      rw [List.isEmpty_iff]
      apply List.filter_eq_nil_iff.mpr
      intro r hrd
      obtain ⟨s, hsd, hsp, hsc⟩ := h r hrd
      simp only [decide_eq_true_eq, Decidable.not_not]
      rw [← hsc]
      exact List.mem_dedup.mpr (List.mem_map_of_mem _
        (List.mem_filter.mpr ⟨hsd, decide_eq_true hsp⟩))

/-- Concrete instance of `analyze_user_portfolio_empty_cases`: holdings
matching no table ticker give the empty result, and holdings covering every
cluster of the table give the empty result. -/
theorem analyze_user_portfolio_empty_cases_witness :
    analyze_user_portfolio id [⟨"A", 0, 1⟩, ⟨"B", 1, 2⟩] ["Z"] 5 = [] ∧
    analyze_user_portfolio id [⟨"A", 0, 1⟩, ⟨"B", 0, 2⟩] ["A"] 5 = [] :=
  ⟨(analyze_user_portfolio_empty_cases id [⟨"A", 0, 1⟩, ⟨"B", 1, 2⟩]
      ["Z"] 5).1 (by decide),
   (analyze_user_portfolio_empty_cases id [⟨"A", 0, 1⟩, ⟨"B", 0, 2⟩]
      ["A"] 5).2 (by decide)⟩
